import Mathlib

/-! The collation engine of monitor-weblog.

A shallow embedding of `collator/collator.go` and `collator/parse.go`.

* Go `float64` values (the moving average and the alert threshold) are
  modelled by exact rationals; rounding is not modelled.
* Go `int` counters are modelled by unbounded integers: every counter is
  bounded by the number of records received.
* A Go string is a sequence of bytes; a request path is modelled by a list of
  characters, one per byte. The code inspects only the ASCII byte `/`.
* The goroutine `_collate` is a loop around one `select`; it is modelled by the
  function `handle`, which treats the one input the `select` picked, and by
  `_collate`, which folds `handle` over the sequence of inputs picked. What is
  sent on the output channels is returned as a list of events.
-/

namespace movingaverage

/-- Modelled from the spec: the fixed-window moving average of the package
`github.com/RobinUS2/golang-moving-average`, which is not part of the
repository. It is a ring buffer of `Window` slots with the position of the
next slot to write, the number of samples held, and a running sum of the
samples held. -/
structure MovingAverage where
  Window : Nat
  values : List ℚ
  valPos : Nat
  count : Nat
  sum : ℚ

/-- Modelled from the spec: `movingaverage.New(window)`, an empty window of
capacity `window`. -/
def New (window : Nat) : MovingAverage :=
  { Window := window, values := List.replicate window 0, valPos := 0, count := 0, sum := 0 }

/-- Modelled from the spec: `Add` stores one sample in the next slot; when the
window is full the sample that was in that slot, the oldest one, is evicted and
leaves the running sum. -/
def MovingAverage.Add (ma : MovingAverage) (val : ℚ) : MovingAverage :=
  if ma.count < ma.Window then
    { ma with
      values := ma.values.set ma.valPos val
      valPos := (ma.valPos + 1) % ma.Window
      count := ma.count + 1
      sum := ma.sum + val }
  else
    { ma with
      values := ma.values.set ma.valPos val
      valPos := (ma.valPos + 1) % ma.Window
      sum := ma.sum - ma.values.getD ma.valPos 0 + val }

/-- Modelled from the spec: `Avg` is the running sum divided by the number of
samples held (0 for an empty window). -/
def MovingAverage.Avg (ma : MovingAverage) : ℚ :=
  if ma.count = 0 then 0 else ma.sum / (ma.count : ℚ)

/-- The window invariant: `ma` is a window of capacity `w` that has received
the samples `hist`, oldest first. It holds as many samples as were received, up
to `w`; the next slot is the number received modulo `w`; the running sum is the
sum of the last `w` samples received; and each of those is in its slot. -/
structure Holds (w : Nat) (hist : List ℚ) (ma : MovingAverage) : Prop where
  window : ma.Window = w
  len : ma.values.length = w
  count : ma.count = min hist.length w
  pos : ma.valPos = hist.length % w
  sum : ma.sum = (hist.drop (hist.length - w)).sum
  slots : ∀ i, hist.length - w ≤ i → i < hist.length →
    (ma.values[i % w]?).getD 0 = (hist[i]?).getD 0

end movingaverage

namespace collator

open movingaverage

set_option linter.dupNamespace false

/-- A `time.Time` value; the engine only copies it into the alert. -/
abbrev Time := Nat

/-- The Go `error` values that travel on `ErrorChan`. -/
abbrev GoError := String

/-- The struct `Alert`. -/
structure Alert where
  InAlertState : Bool
  AverageHitsPerSecond : ℚ
  Time : Time
  deriving DecidableEq

/-- The struct `Site`. -/
structure Site where
  TotalHits : Int
  Site : List Char
  deriving DecidableEq

/-- The struct `Sites`. -/
structure Sites where
  Sites : List Site
  deriving DecidableEq

/-- The struct `Status`. -/
structure Status where
  HitsLastSecond : Int
  AverageHitsPerSecond : ℚ
  deriving DecidableEq

/-- The type `logparse.Entry` is declared outside the sources at hand; the
engine reads only `entry.Request.URL.Path`. -/
structure Entry where
  Path : List Char
  deriving DecidableEq

/-- The Go type `map[string]int` of `siteHits`: a finite map with unique keys.
The order of its entries stands for the order in which `range` visits them. -/
abbrev SiteHits := AList (fun _ : List Char => Int)

/-- The mutable fields of the struct `Collator` (channels and timers are
modelled by the inputs and outputs of `handle`). -/
structure Collator where
  alertThreshold : ℚ
  accumHits : Int
  inAlertedState : Bool
  hitsMovingAverage : MovingAverage
  siteHits : SiteHits

/-- The output channels of the engine. -/
inductive Chan where
  | ErrorChan
  | SitesChan
  | AlertChan
  | StatusChan
  deriving DecidableEq

/-- What the engine does to the outside, in order: a value sent on a channel,
a channel closed, the tailer stopped. -/
inductive Event where
  | sendStatus (s : Status)
  | sendAlert (a : Alert)
  | sendSites (s : Sites)
  | sendError (e : GoError)
  | close (ch : Chan)
  | tailerStop
  deriving DecidableEq

/-- The case of the `select` in `_collate` that fires. `entry none` is the nil
pointer, which is what a receive on the closed `entryChan` yields. -/
inductive Input where
  | ctxDone
  | entry (e : Option Entry)
  | movingAverageTimer (now : Time)
  | sitesTimer
  | ResetChan
  deriving DecidableEq

/-- The state built by `NewAndRun`: empty `siteHits`, a window of `2 * 60`
samples, the threshold converted to `float64`, the other fields zero. -/
def NewAndRun (alertThreshold : Int) : Collator :=
  { siteHits := ∅
    hitsMovingAverage := movingaverage.New (2 * 60)
    alertThreshold := (alertThreshold : ℚ)
    accumHits := 0
    inAlertedState := false }

/-- The Go function `strings.Index`: the index of the first instance of
`substr` in `s`, or `-1`. -/
def stringsIndex (s substr : List Char) : Int :=
  if substr.isPrefixOf s then 0
  else
    match s with
    | [] => -1
    | _ :: t => if stringsIndex t substr = -1 then -1 else stringsIndex t substr + 1

/-- The method `recordEntry`. The result `none` is a run-time panic: reading
`entry.Request` through a nil pointer. -/
def recordEntry (self : Collator) : Option Entry → Option Collator
  | none => none
  | some entry =>
    if entry.Path.length < 3 || entry.Path.head? != some '/' then some self
    else
      let secondSlashIndex := stringsIndex (entry.Path.drop 1) ['/']
      if secondSlashIndex = -1 then some self
      else
        let site := entry.Path.take (secondSlashIndex + 1).toNat
        match self.siteHits.lookup site with
        | some n => some { self with siteHits := self.siteHits.insert site (n + 1) }
        | none => some { self with siteHits := self.siteHits.insert site 1 }

/-- The method `ByHits.Less`, on the two elements it compares. -/
def ByHits.Less (a b : Site) : Bool := decide (a.TotalHits < b.TotalHits)

/-- The Go function `sort.Reverse`: the same data with `Less` swapped. -/
def sortReverse (less : Site → Site → Bool) : Site → Site → Bool := fun a b => less b a

/-- The inner loop of an insertion sort: `x` moves left past every element it
is `Less` than. The sorted part is given nearest element first. -/
def insertLeft (less : Site → Site → Bool) (x : Site) : List Site → List Site
  | [] => [x]
  | y :: ys => if less x y then y :: insertLeft less x ys else x :: y :: ys

/-- The Go function `sort.Sort` belongs to the standard library; it is modelled
by the insertion sort that the library runs on short slices. It consults the
data through `Less` only; the order it gives to ties is not specified by Go. -/
def sortSort (less : Site → Site → Bool) (data : List Site) : List Site :=
  (data.foldl (fun sorted x => insertLeft less x sorted) []).reverse

/-- The method `sendSites`: the value it sends on `SitesChan`. -/
def sendSites (self : Collator) : Sites :=
  let sites := self.siteHits.entries.map (fun e => ({ Site := e.1, TotalHits := e.2 } : Site))
  { Sites := sortSort (sortReverse ByHits.Less) sites }

/-- How one iteration of the loop of `_collate` ends. -/
inductive Outcome where
  | running (self : Collator) (out : List Event)
  | returned
  | panicked

/-- One iteration of the `for`/`select` loop of `_collate`. -/
def handle (self : Collator) : Input → Outcome
  | Input.ctxDone => Outcome.returned
  | Input.entry entry =>
    match recordEntry self entry with
    | none => Outcome.panicked
    | some c => Outcome.running { c with accumHits := c.accumHits + 1 } []
  | Input.movingAverageTimer now =>
    let ma := self.hitsMovingAverage.Add (self.accumHits : ℚ)
    let avg := ma.Avg
    let status := Event.sendStatus { HitsLastSecond := self.accumHits, AverageHitsPerSecond := avg }
    let c := { self with hitsMovingAverage := ma, accumHits := 0 }
    if self.inAlertedState then
      if avg < self.alertThreshold then
        Outcome.running { c with inAlertedState := false }
          [status, Event.sendAlert { InAlertState := false, AverageHitsPerSecond := avg, Time := now }]
      else Outcome.running c [status]
    else
      if avg > self.alertThreshold then
        Outcome.running { c with inAlertedState := true }
          [status, Event.sendAlert { InAlertState := true, AverageHitsPerSecond := avg, Time := now }]
      else Outcome.running c [status]
  | Input.sitesTimer => Outcome.running self [Event.sendSites (sendSites self)]
  | Input.ResetChan => Outcome.running { self with siteHits := ∅ } []

/-- The deferred calls of `_collate`, in the order Go runs them (last deferred
first). They run when the function returns and when it panics. -/
def deferred : List Event :=
  [Event.close Chan.StatusChan, Event.close Chan.AlertChan, Event.close Chan.SitesChan,
   Event.close Chan.ErrorChan, Event.tailerStop]

/-- How `_collate` left its loop. -/
inductive Exit where
  | returned
  | panicked
  deriving DecidableEq

/-- One handled input: the input, the state before and after it, what was
sent. -/
structure Step where
  input : Input
  before : Collator
  after : Collator
  out : List Event

/-- A run of `_collate` on a finite sequence of inputs: the inputs handled,
the deferred calls if the loop was left, and how it was left (`none`: the
engine waits in its `select` for the next input). -/
structure Run where
  steps : List Step
  closing : List Event
  exit : Option Exit

/-- The goroutine `_collate`, on the inputs its `select` picks, in order. -/
def _collate (self : Collator) : List Input → Run
  | [] => { steps := [], closing := [], exit := none }
  | i :: rest =>
    match handle self i with
    | Outcome.running c out =>
      let r := _collate c rest
      { r with steps := { input := i, before := self, after := c, out := out } :: r.steps }
    | Outcome.returned => { steps := [], closing := deferred, exit := some Exit.returned }
    | Outcome.panicked => { steps := [], closing := deferred, exit := some Exit.panicked }

/-- Everything a run sends or closes, in order. -/
def Run.events (r : Run) : List Event :=
  (r.steps.map Step.out).flatten ++ r.closing

/-- The alert an event sends on `AlertChan`, if it is one. -/
def Event.alert? : Event → Option Alert
  | Event.sendAlert a => some a
  | _ => none

/-- The status report an event sends on `StatusChan`, if it is one. -/
def Event.status? : Event → Option Status
  | Event.sendStatus s => some s
  | _ => none

/-- The alerts among a list of events, in order. -/
def alerts (es : List Event) : List Alert := es.filterMap Event.alert?

/-- The status reports among a list of events, in order. -/
def statuses (es : List Event) : List Status := es.filterMap Event.status?

/-- The value of `avg` that the moving-average case of `_collate` computes
from a state: the window average after the pending count is added. -/
def tickAvg (self : Collator) : ℚ :=
  (self.hitsMovingAverage.Add (self.accumHits : ℚ)).Avg

/-- The input is a sampling tick. -/
def Input.isTick : Input → Bool
  | Input.movingAverageTimer _ => true
  | _ => false

/-- The input is a record (a non-nil entry). -/
def Input.isRecord : Input → Bool
  | Input.entry (some _) => true
  | _ => false

/-- The input is neither a sampling tick nor one that ends the loop: a record,
the sites timer, or a reset. -/
def Input.isQuiet : Input → Bool
  | Input.entry (some _) => true
  | Input.sitesTimer => true
  | Input.ResetChan => true
  | _ => false

/-- The state a run ends in: the state after the last handled input. -/
def Run.final (self : Collator) (r : Run) : Collator :=
  match r.steps.getLast? with
  | some s => s.after
  | none => self

/-- What the goroutine `_parse` has done when it returns: the entries it sent on
`entryChan`, in order, and the error it sent on `ErrorChan`, if any. When it
returns, its deferred call closes `entryChan`. -/
structure ParseRun where
  entries : List Entry
  error : Option GoError

/-- The goroutine `_parse`, on the lines it receives from `lineChan` until that
channel is closed or the context is done. The function `logparse.Common` is
declared outside the sources at hand and is a parameter. -/
def _parse (Common : String → Except GoError Entry) : List String → ParseRun
  | [] => { entries := [], error := none }
  | line :: rest =>
    match Common line with
    | Except.error err => { entries := [], error := some err }
    | Except.ok entry =>
      let r := _parse Common rest
      { r with entries := entry :: r.entries }

/-- The site key as the specification words it: the substring of the path from
its second character up to, not including, the next `/`. -/
def specSiteKey (path : List Char) : List Char :=
  (path.drop 1).takeWhile (fun ch => ch != '/')

/-- The inputs of a sequence of sampling intervals: in each interval some
inputs, then the sampling tick that ends it. -/
def feed (intervals : List (List Input × Time)) : List Input :=
  intervals.flatMap (fun p => p.1 ++ [Input.movingAverageTimer p.2])

/-- The samples of a sequence of sampling intervals: the number of records in
each. -/
def samples (intervals : List (List Input × Time)) : List ℚ :=
  intervals.map (fun p => (((p.1.countP Input.isRecord : Nat) : Int) : ℚ))

/-- The arithmetic mean of the most recent `capacity` samples of a sequence,
or of all of them when there are fewer. -/
def meanOfLast (capacity : Nat) (l : List ℚ) : ℚ :=
  (l.drop (l.length - capacity)).sum / ((l.drop (l.length - capacity)).length : ℚ)

end collator

/-! ## The alert state machine -/

namespace collator

open movingaverage

theorem alerts_append (a b : List Event) : alerts (a ++ b) = alerts a ++ alerts b := by
  simp [alerts, List.filterMap_append]

theorem statuses_append (a b : List Event) : statuses (a ++ b) = statuses a ++ statuses b := by
  simp [statuses, List.filterMap_append]

theorem alerts_deferred : alerts deferred = [] := by
  simp [alerts, deferred, Event.alert?]

theorem statuses_deferred : statuses deferred = [] := by
  simp [statuses, deferred, Event.status?]

/-- The four cases of a sampling tick: alerting or normal, and the side of the
threshold the average is on. -/
theorem handle_tick_alerting_lt (c : Collator) (now : Time)
    (hA : c.inAlertedState = true) (h : tickAvg c < c.alertThreshold) :
    handle c (Input.movingAverageTimer now) =
      Outcome.running
        { c with
          hitsMovingAverage := c.hitsMovingAverage.Add (c.accumHits : ℚ)
          accumHits := 0
          inAlertedState := false }
        [Event.sendStatus { HitsLastSecond := c.accumHits, AverageHitsPerSecond := tickAvg c },
         Event.sendAlert { InAlertState := false, AverageHitsPerSecond := tickAvg c, Time := now }] := by
  unfold tickAvg at h
  simp [handle, tickAvg, hA, h]

theorem handle_tick_alerting_ge (c : Collator) (now : Time)
    (hA : c.inAlertedState = true) (h : c.alertThreshold ≤ tickAvg c) :
    handle c (Input.movingAverageTimer now) =
      Outcome.running
        { c with
          hitsMovingAverage := c.hitsMovingAverage.Add (c.accumHits : ℚ)
          accumHits := 0 }
        [Event.sendStatus { HitsLastSecond := c.accumHits, AverageHitsPerSecond := tickAvg c }] := by
  unfold tickAvg at h
  simp [handle, tickAvg, hA, not_lt.mpr h]

theorem handle_tick_normal_gt (c : Collator) (now : Time)
    (hA : c.inAlertedState = false) (h : c.alertThreshold < tickAvg c) :
    handle c (Input.movingAverageTimer now) =
      Outcome.running
        { c with
          hitsMovingAverage := c.hitsMovingAverage.Add (c.accumHits : ℚ)
          accumHits := 0
          inAlertedState := true }
        [Event.sendStatus { HitsLastSecond := c.accumHits, AverageHitsPerSecond := tickAvg c },
         Event.sendAlert { InAlertState := true, AverageHitsPerSecond := tickAvg c, Time := now }] := by
  unfold tickAvg at h
  simp [handle, tickAvg, hA, h]

theorem handle_tick_normal_le (c : Collator) (now : Time)
    (hA : c.inAlertedState = false) (h : tickAvg c ≤ c.alertThreshold) :
    handle c (Input.movingAverageTimer now) =
      Outcome.running
        { c with
          hitsMovingAverage := c.hitsMovingAverage.Add (c.accumHits : ℚ)
          accumHits := 0 }
        [Event.sendStatus { HitsLastSecond := c.accumHits, AverageHitsPerSecond := tickAvg c }] := by
  unfold tickAvg at h
  simp [handle, tickAvg, hA, not_lt.mpr h]

theorem recordEntry_frame {c c1 : Collator} {e : Option Entry} (h : recordEntry c e = some c1) :
    c1.alertThreshold = c.alertThreshold ∧ c1.accumHits = c.accumHits ∧
      c1.inAlertedState = c.inAlertedState ∧ c1.hitsMovingAverage = c.hitsMovingAverage := by
  cases e with
  | none => simp [recordEntry] at h
  | some entry =>
    simp only [recordEntry] at h
    split_ifs at h
    · cases h; simp
    · cases h; simp
    · split at h <;> (cases h; simp)

theorem recordEntry_some (c : Collator) (entry : Entry) :
    ∃ c1, recordEntry c (some entry) = some c1 := by
  simp only [recordEntry]
  split_ifs
  · exact ⟨_, rfl⟩
  · exact ⟨_, rfl⟩
  · split <;> exact ⟨_, rfl⟩

theorem collate_cons_running {c c1 : Collator} {i : Input} {out : List Event} (rest : List Input)
    (h : handle c i = Outcome.running c1 out) :
    _collate c (i :: rest) =
      { steps := { input := i, before := c, after := c1, out := out } :: (_collate c1 rest).steps
        closing := (_collate c1 rest).closing
        exit := (_collate c1 rest).exit } := by
  simp [_collate, h]

theorem collate_cons_returned {c : Collator} {i : Input} (rest : List Input)
    (h : handle c i = Outcome.returned) :
    _collate c (i :: rest) = { steps := [], closing := deferred, exit := some Exit.returned } := by
  simp [_collate, h]

theorem collate_cons_panicked {c : Collator} {i : Input} (rest : List Input)
    (h : handle c i = Outcome.panicked) :
    _collate c (i :: rest) = { steps := [], closing := deferred, exit := some Exit.panicked } := by
  simp [_collate, h]

/-- What one handled input does to the alert state: an input other than a
sampling tick leaves the threshold and the alert flag alone and sends no
alert. -/
theorem handle_not_tick {c c1 : Collator} {i : Input} {out : List Event}
    (h : handle c i = Outcome.running c1 out) (hi : i.isTick = false) :
    c1.alertThreshold = c.alertThreshold ∧ c1.inAlertedState = c.inAlertedState ∧
      c1.hitsMovingAverage = c.hitsMovingAverage ∧ alerts out = [] ∧ statuses out = [] := by
  cases i with
  | ctxDone => simp [handle] at h
  | entry e =>
    simp only [handle] at h
    cases hr : recordEntry c e with
    | none => simp [hr] at h
    | some c2 =>
      simp only [hr, Outcome.running.injEq] at h
      obtain ⟨h1, h2⟩ := h
      obtain ⟨f1, _, f3, f4⟩ := recordEntry_frame hr
      subst h1 h2
      simp [f1, f3, f4, alerts, statuses]
  | movingAverageTimer now => simp [Input.isTick] at hi
  | sitesTimer =>
    simp only [handle, Outcome.running.injEq] at h
    obtain ⟨h1, h2⟩ := h
    subst h1 h2
    simp [alerts, statuses, Event.alert?, Event.status?]
  | ResetChan =>
    simp only [handle, Outcome.running.injEq] at h
    obtain ⟨h1, h2⟩ := h
    subst h1 h2
    simp [alerts, statuses]

theorem handle_threshold {c c1 : Collator} {i : Input} {out : List Event}
    (h : handle c i = Outcome.running c1 out) : c1.alertThreshold = c.alertThreshold := by
  cases hi : i.isTick with
  | false => exact (handle_not_tick h hi).1
  | true =>
    cases i with
    | movingAverageTimer now =>
      simp only [handle] at h
      split_ifs at h <;> (simp only [Outcome.running.injEq] at h; obtain ⟨h1, _⟩ := h; subst h1; rfl)
    | _ => simp [Input.isTick] at hi

theorem steps_cons_running {c c1 : Collator} {i : Input} {out : List Event} (rest : List Input)
    (h : handle c i = Outcome.running c1 out) :
    (_collate c (i :: rest)).steps =
      { input := i, before := c, after := c1, out := out } :: (_collate c1 rest).steps := by
  rw [collate_cons_running rest h]

theorem events_cons_running {c c1 : Collator} {i : Input} {out : List Event} (rest : List Input)
    (h : handle c i = Outcome.running c1 out) :
    (_collate c (i :: rest)).events = out ++ (_collate c1 rest).events := by
  rw [collate_cons_running rest h]
  simp [Run.events]

/-- While the average stays at or above the threshold, an alerting engine
stays alerting and sends no alert. -/
theorem collate_alerting_steady (inputs : List Input) :
    ∀ c : Collator, c.inAlertedState = true →
      (∀ s ∈ (_collate c inputs).steps, s.input.isTick = true →
        c.alertThreshold ≤ tickAvg s.before) →
      alerts (_collate c inputs).events = [] ∧
        ∀ s ∈ (_collate c inputs).steps, s.after.inAlertedState = true := by
  induction inputs with
  | nil => intro c _ _; simp [_collate, Run.events, alerts]
  | cons i rest ih =>
    intro c hA hav
    cases hh : handle c i with
    | running c1 out =>
      rw [steps_cons_running rest hh] at hav ⊢
      rw [events_cons_running rest hh, alerts_append]
      have hT : c1.alertThreshold = c.alertThreshold := handle_threshold hh
      have key : c1.inAlertedState = true ∧ alerts out = [] := by
        cases hi : i.isTick with
        | false =>
          obtain ⟨_, h2, _, h4, _⟩ := handle_not_tick hh hi
          exact ⟨h2.trans hA, h4⟩
        | true =>
          cases i with
          | movingAverageTimer now =>
            have hge := hav _ (List.mem_cons_self _ _) hi
            rw [handle_tick_alerting_ge c now hA hge, Outcome.running.injEq] at hh
            obtain ⟨h1, h2⟩ := hh
            subst h1 h2
            exact ⟨hA, by simp [alerts, Event.alert?]⟩
          | _ => simp [Input.isTick] at hi
      obtain ⟨r1, r2⟩ := ih c1 key.1 (fun s hs ht => by
        rw [hT]; exact hav s (List.mem_cons_of_mem _ hs) ht)
      refine ⟨by rw [key.2, r1]; rfl, ?_⟩
      intro s hs
      rcases List.mem_cons.mp hs with rfl | hs
      · exact key.1
      · exact r2 s hs
    | returned =>
      rw [collate_cons_returned rest hh]
      simp [Run.events, alerts_deferred]
    | panicked =>
      rw [collate_cons_panicked rest hh]
      simp [Run.events, alerts_deferred]

/-- While the average stays at or below the threshold, a normal engine stays
normal and sends no alert. -/
theorem collate_normal_steady (inputs : List Input) :
    ∀ c : Collator, c.inAlertedState = false →
      (∀ s ∈ (_collate c inputs).steps, s.input.isTick = true →
        tickAvg s.before ≤ c.alertThreshold) →
      alerts (_collate c inputs).events = [] ∧
        ∀ s ∈ (_collate c inputs).steps, s.after.inAlertedState = false := by
  induction inputs with
  | nil => intro c _ _; simp [_collate, Run.events, alerts]
  | cons i rest ih =>
    intro c hA hav
    cases hh : handle c i with
    | running c1 out =>
      rw [steps_cons_running rest hh] at hav ⊢
      rw [events_cons_running rest hh, alerts_append]
      have hT : c1.alertThreshold = c.alertThreshold := handle_threshold hh
      have key : c1.inAlertedState = false ∧ alerts out = [] := by
        cases hi : i.isTick with
        | false =>
          obtain ⟨_, h2, _, h4, _⟩ := handle_not_tick hh hi
          exact ⟨h2.trans hA, h4⟩
        | true =>
          cases i with
          | movingAverageTimer now =>
            have hle := hav _ (List.mem_cons_self _ _) hi
            rw [handle_tick_normal_le c now hA hle, Outcome.running.injEq] at hh
            obtain ⟨h1, h2⟩ := hh
            subst h1 h2
            exact ⟨hA, by simp [alerts, Event.alert?]⟩
          | _ => simp [Input.isTick] at hi
      obtain ⟨r1, r2⟩ := ih c1 key.1 (fun s hs ht => by
        rw [hT]; exact hav s (List.mem_cons_of_mem _ hs) ht)
      refine ⟨by rw [key.2, r1]; rfl, ?_⟩
      intro s hs
      rcases List.mem_cons.mp hs with rfl | hs
      · exact key.1
      · exact r2 s hs
    | returned =>
      rw [collate_cons_returned rest hh]
      simp [Run.events, alerts_deferred]
    | panicked =>
      rw [collate_cons_panicked rest hh]
      simp [Run.events, alerts_deferred]

/-- Every alert one handled input sends is on the right side of the
threshold. -/
theorem handle_alert_sides {c c1 : Collator} {i : Input} {out : List Event}
    (h : handle c i = Outcome.running c1 out) :
    ∀ a ∈ alerts out,
      (a.InAlertState = true → c.alertThreshold < a.AverageHitsPerSecond) ∧
        (a.InAlertState = false → a.AverageHitsPerSecond < c.alertThreshold) := by
  cases hi : i.isTick with
  | false => simp [(handle_not_tick h hi).2.2.2.1]
  | true =>
    cases i with
    | movingAverageTimer now =>
      simp only [handle] at h
      split_ifs at h with h1 h2 h3 <;>
        (simp only [Outcome.running.injEq] at h; obtain ⟨_, e2⟩ := h; subst e2)
      · simpa [alerts, Event.alert?] using h2
      · simp [alerts, Event.alert?]
      · simpa [alerts, Event.alert?] using h3
      · simp [alerts, Event.alert?]
    | _ => simp [Input.isTick] at hi

/-! ## Claims about the alert state machine -/

/-- C1, as stated, fails: an engine that is alerting and whose moving average
comes out exactly equal to the threshold stays alerting and sends no alert.
The state is the one a fresh engine with threshold 10 reaches after 20 records
and one tick; the next tick, with no record, gives the average (20 + 0) / 2. -/
theorem C1_counterexample :
    Run.final (NewAndRun 10)
        (_collate (NewAndRun 10)
          (List.replicate 20 (Input.entry (some { Path := [] })) ++ [Input.movingAverageTimer 1])) =
      { NewAndRun 10 with inAlertedState := true, hitsMovingAverage := (New 120).Add 20 } ∧
    tickAvg { NewAndRun 10 with inAlertedState := true, hitsMovingAverage := (New 120).Add 20 } ≤
      (NewAndRun 10).alertThreshold ∧
    ∃ c1,
      handle { NewAndRun 10 with inAlertedState := true, hitsMovingAverage := (New 120).Add 20 }
          (Input.movingAverageTimer 2) =
        Outcome.running c1 [Event.sendStatus { HitsLastSecond := 0, AverageHitsPerSecond := 10 }] ∧
      c1.inAlertedState = true := by
  refine ⟨?_, ?_, ?_⟩
  · simp [_collate, handle, recordEntry, Run.final, NewAndRun, MovingAverage.Add, MovingAverage.Avg,
      New, List.replicate]
    norm_num
  · simp [tickAvg, NewAndRun, MovingAverage.Add, MovingAverage.Avg, New]
    norm_num
  · simp [handle, NewAndRun, MovingAverage.Add, MovingAverage.Avg, New]
    norm_num

/-- C1, amended: a sampling tick handled while the engine is alerting, with a
moving average strictly below the threshold, puts the engine back to normal
and sends exactly one alert, with `InAlertState = false`, the average and the
tick time; with a moving average exactly equal to the threshold the engine
stays alerting and sends no alert. -/
theorem C1_alerting_tick_recovers_strictly_below (c : Collator) (now : Time)
    (hA : c.inAlertedState = true) (h : tickAvg c ≤ c.alertThreshold) :
    ∃ c1 out, handle c (Input.movingAverageTimer now) = Outcome.running c1 out ∧
      (tickAvg c < c.alertThreshold →
        c1.inAlertedState = false ∧
          alerts out =
            [{ InAlertState := false, AverageHitsPerSecond := tickAvg c, Time := now }]) ∧
      (tickAvg c = c.alertThreshold → c1.inAlertedState = true ∧ alerts out = []) := by
  rcases lt_or_eq_of_le h with hlt | heq
  · refine ⟨_, _, handle_tick_alerting_lt c now hA hlt, ?_, ?_⟩
    · intro _; simp [alerts, Event.alert?]
    · intro he; exact absurd he (ne_of_lt hlt)
  · refine ⟨_, _, handle_tick_alerting_ge c now hA (le_of_eq heq.symm), ?_, ?_⟩
    · intro hl; exact absurd heq (ne_of_lt hl)
    · intro _; exact ⟨hA, by simp [alerts, Event.alert?]⟩

/-- C1, amended, at an alerting engine with threshold 10 whose window holds the
sample 20 and whose next two samples are 0: the average 20 / 3 is below 10. -/
theorem C1_alerting_tick_recovers_strictly_below_witness :
    ∃ c1 out,
      handle { NewAndRun 10 with inAlertedState := true, hitsMovingAverage := ((New 120).Add 20).Add 0 }
          (Input.movingAverageTimer 3) = Outcome.running c1 out ∧
      (tickAvg { NewAndRun 10 with
            inAlertedState := true, hitsMovingAverage := ((New 120).Add 20).Add 0 } <
          (10 : ℚ) →
        c1.inAlertedState = false ∧
          alerts out =
            [{ InAlertState := false
               AverageHitsPerSecond := tickAvg { NewAndRun 10 with
                 inAlertedState := true, hitsMovingAverage := ((New 120).Add 20).Add 0 }
               Time := 3 }]) ∧
      (tickAvg { NewAndRun 10 with
            inAlertedState := true, hitsMovingAverage := ((New 120).Add 20).Add 0 } =
          (10 : ℚ) →
        c1.inAlertedState = true ∧ alerts out = []) :=
  C1_alerting_tick_recovers_strictly_below
    { NewAndRun 10 with inAlertedState := true, hitsMovingAverage := ((New 120).Add 20).Add 0 } 3 rfl
    (by simp [tickAvg, NewAndRun, MovingAverage.Add, MovingAverage.Avg, New]; norm_num)

/-- C2: a run that starts with a sampling tick on a normal engine and in which
every tick computes an average strictly above the threshold sends exactly one
alert: on that first tick, with `InAlertState = true`, that tick's average and
time; and the engine is alerting after every tick of the run. Records, resets
and site reports may come between the ticks. -/
theorem C2_one_alert_while_above (c : Collator) (now : Time) (rest : List Input)
    (hN : c.inAlertedState = false)
    (habove : ∀ s ∈ (_collate c (Input.movingAverageTimer now :: rest)).steps,
      s.input.isTick = true → c.alertThreshold < tickAvg s.before) :
    alerts (_collate c (Input.movingAverageTimer now :: rest)).events =
        [{ InAlertState := true, AverageHitsPerSecond := tickAvg c, Time := now }] ∧
      ∀ s ∈ (_collate c (Input.movingAverageTimer now :: rest)).steps,
        s.input.isTick = true → s.after.inAlertedState = true := by
  have h0 : c.alertThreshold < tickAvg c := by
    have hh : handle c (Input.movingAverageTimer now) ≠ Outcome.returned ∧
        handle c (Input.movingAverageTimer now) ≠ Outcome.panicked := by
      simp only [handle]; split_ifs <;> simp
    cases hc : handle c (Input.movingAverageTimer now) with
    | running c1 out =>
      rw [steps_cons_running rest hc] at habove
      exact habove _ (List.mem_cons_self _ _) rfl
    | returned => exact absurd hc hh.1
    | panicked => exact absurd hc hh.2
  have hstep := handle_tick_normal_gt c now hN h0
  rw [steps_cons_running rest hstep] at habove ⊢
  rw [events_cons_running rest hstep, alerts_append]
  obtain ⟨r1, r2⟩ := collate_alerting_steady rest
    { c with
      hitsMovingAverage := c.hitsMovingAverage.Add (c.accumHits : ℚ)
      accumHits := 0
      inAlertedState := true } rfl
    (fun s hs ht => le_of_lt (habove s (List.mem_cons_of_mem _ hs) ht))
  refine ⟨by rw [r1]; simp [alerts, Event.alert?], ?_⟩
  intro s hs _
  rcases List.mem_cons.mp hs with rfl | hs
  · rfl
  · exact r2 s hs

/-- C2 at a fresh engine with threshold 10 that has counted 30 records: two
ticks in a row compute the averages 30 and 15. -/
theorem C2_one_alert_while_above_witness :
    alerts (_collate { NewAndRun 10 with accumHits := 30 }
        [Input.movingAverageTimer 1, Input.movingAverageTimer 2]).events =
        [{ InAlertState := true
           AverageHitsPerSecond := tickAvg { NewAndRun 10 with accumHits := 30 }
           Time := 1 }] ∧
      ∀ s ∈ (_collate { NewAndRun 10 with accumHits := 30 }
          [Input.movingAverageTimer 1, Input.movingAverageTimer 2]).steps,
        s.input.isTick = true → s.after.inAlertedState = true :=
  C2_one_alert_while_above { NewAndRun 10 with accumHits := 30 } 1 [Input.movingAverageTimer 2] rfl
    (by
      simp [_collate, handle, tickAvg, NewAndRun, MovingAverage.Add, MovingAverage.Avg, New]
      norm_num)

/-- C6: in every run, an alert sent with `InAlertState = true` carries an
average strictly above the threshold, and an alert sent with
`InAlertState = false` carries an average at most the threshold. -/
theorem C6_alert_sides (inputs : List Input) :
    ∀ c : Collator, ∀ a ∈ alerts (_collate c inputs).events,
      (a.InAlertState = true → c.alertThreshold < a.AverageHitsPerSecond) ∧
        (a.InAlertState = false → a.AverageHitsPerSecond ≤ c.alertThreshold) := by
  induction inputs with
  | nil => intro c a ha; simp [_collate, Run.events, alerts] at ha
  | cons i rest ih =>
    intro c a ha
    cases hh : handle c i with
    | running c1 out =>
      rw [events_cons_running rest hh, alerts_append, List.mem_append] at ha
      rcases ha with ha | ha
      · obtain ⟨h1, h2⟩ := handle_alert_sides hh a ha
        exact ⟨h1, fun hf => le_of_lt (h2 hf)⟩
      · have := ih c1 a ha
        rwa [handle_threshold hh] at this
    | returned =>
      rw [collate_cons_returned rest hh] at ha
      simp [Run.events, alerts_deferred] at ha
    | panicked =>
      rw [collate_cons_panicked rest hh] at ha
      simp [Run.events, alerts_deferred] at ha

/-- C7: in a run that starts from a normal engine, as a freshly created one is,
and in which every tick computes an average at most the threshold, no alert is
sent and the engine is normal after every handled input. -/
theorem C7_no_alert_while_at_or_below (c : Collator) (inputs : List Input)
    (hN : c.inAlertedState = false)
    (hbelow : ∀ s ∈ (_collate c inputs).steps,
      s.input.isTick = true → tickAvg s.before ≤ c.alertThreshold) :
    alerts (_collate c inputs).events = [] ∧
      ∀ s ∈ (_collate c inputs).steps, s.after.inAlertedState = false :=
  collate_normal_steady inputs c hN hbelow

/-- C10: handling a reset leaves the engine running with an empty `siteHits`,
the same window, pending count, alert flag and threshold, and sends nothing on
any channel. -/
theorem C10_reset_frame (c : Collator) :
    ∃ c1, handle c Input.ResetChan = Outcome.running c1 [] ∧
      c1.siteHits = ∅ ∧ c1.siteHits.entries = [] ∧
      c1.hitsMovingAverage = c.hitsMovingAverage ∧ c1.accumHits = c.accumHits ∧
      c1.inAlertedState = c.inAlertedState ∧ c1.alertThreshold = c.alertThreshold :=
  ⟨{ c with siteHits := ∅ }, rfl, rfl, rfl, rfl, rfl, rfl, rfl⟩

/-- C6 on the scenario of `TestAlert`: threshold 10, the window preloaded with
the samples 20, 20, 20, then ticks with no record. The averages are 15, 12, 10
and 60 / 7; the alert sent on the fourth tick is the recovery. -/
theorem C6_alert_sides_witness :
    ({ InAlertState := false, AverageHitsPerSecond := 60 / 7, Time := 4 } : Alert) ∈
        alerts (_collate
          { NewAndRun 10 with hitsMovingAverage := (((New 120).Add 20).Add 20).Add 20 }
          [Input.movingAverageTimer 1, Input.movingAverageTimer 2, Input.movingAverageTimer 3,
           Input.movingAverageTimer 4]).events ∧
      ((false = true → (10 : ℚ) < 60 / 7) ∧ (false = false → (60 / 7 : ℚ) ≤ 10)) :=
  ⟨by
      simp [_collate, handle, Run.events, alerts, Event.alert?, NewAndRun, MovingAverage.Add,
        MovingAverage.Avg, New]
      norm_num,
    C6_alert_sides
      [Input.movingAverageTimer 1, Input.movingAverageTimer 2, Input.movingAverageTimer 3,
       Input.movingAverageTimer 4]
      { NewAndRun 10 with hitsMovingAverage := (((New 120).Add 20).Add 20).Add 20 }
      { InAlertState := false, AverageHitsPerSecond := 60 / 7, Time := 4 }
      (by
        simp [_collate, handle, Run.events, alerts, Event.alert?, NewAndRun, MovingAverage.Add,
          MovingAverage.Avg, New]
        norm_num)⟩

/-- C7 on the scenario of `TestNoAlert`: a fresh engine with threshold 10 and
three ticks, each after 8 records. -/
theorem C7_no_alert_while_at_or_below_witness :
    alerts (_collate (NewAndRun 10)
        (List.replicate 8 (Input.entry (some { Path := [] })) ++ [Input.movingAverageTimer 1] ++
          List.replicate 8 (Input.entry (some { Path := [] })) ++ [Input.movingAverageTimer 2] ++
          List.replicate 8 (Input.entry (some { Path := [] })) ++ [Input.movingAverageTimer 3])).events =
        [] ∧
      ∀ s ∈ (_collate (NewAndRun 10)
        (List.replicate 8 (Input.entry (some { Path := [] })) ++ [Input.movingAverageTimer 1] ++
          List.replicate 8 (Input.entry (some { Path := [] })) ++ [Input.movingAverageTimer 2] ++
          List.replicate 8 (Input.entry (some { Path := [] })) ++ [Input.movingAverageTimer 3])).steps,
        s.after.inAlertedState = false :=
  C7_no_alert_while_at_or_below (NewAndRun 10) _ rfl
    (by
      simp [_collate, handle, recordEntry, tickAvg, Input.isTick, NewAndRun, MovingAverage.Add,
        MovingAverage.Avg, New, List.replicate]
      norm_num)

/-! ## Runs in pieces -/

theorem final_nil (c : Collator) : Run.final c (_collate c []) = c := by
  simp [Run.final, _collate]

theorem final_cons_running {c c1 : Collator} {i : Input} {out : List Event} (rest : List Input)
    (h : handle c i = Outcome.running c1 out) :
    Run.final c (_collate c (i :: rest)) = Run.final c1 (_collate c1 rest) := by
  rw [collate_cons_running rest h]
  simp only [Run.final]
  cases hs : (_collate c1 rest).steps with
  | nil => simp
  | cons s ss =>
    rw [List.getLast?_cons_cons, List.getLast?_eq_getLast _ (List.cons_ne_nil s ss)]

theorem exit_cons_running {c c1 : Collator} {i : Input} {out : List Event} (rest : List Input)
    (h : handle c i = Outcome.running c1 out) :
    (_collate c (i :: rest)).exit = (_collate c1 rest).exit := by
  rw [collate_cons_running rest h]

/-- A run that has not left the loop goes on from its final state. -/
theorem collate_append (a : List Input) :
    ∀ (c : Collator) (b : List Input), (_collate c a).exit = none →
      (_collate c (a ++ b)).events =
          (_collate c a).events ++ (_collate (Run.final c (_collate c a)) b).events ∧
        (_collate c (a ++ b)).exit = (_collate (Run.final c (_collate c a)) b).exit ∧
        Run.final c (_collate c (a ++ b)) =
          Run.final (Run.final c (_collate c a)) (_collate (Run.final c (_collate c a)) b) := by
  induction a with
  | nil =>
    intro c b _
    rw [final_nil, List.nil_append]
    simp [_collate, Run.events]
  | cons i rest ih =>
    intro c b hex
    cases hh : handle c i with
    | running c1 out =>
      rw [exit_cons_running rest hh] at hex
      obtain ⟨e1, e2, e3⟩ := ih c1 b hex
      rw [List.cons_append, events_cons_running (rest ++ b) hh, events_cons_running rest hh,
        exit_cons_running (rest ++ b) hh, final_cons_running (rest ++ b) hh,
        final_cons_running rest hh, e1, e2, e3, List.append_assoc]
      exact ⟨rfl, rfl, rfl⟩
    | returned => rw [collate_cons_returned rest hh] at hex; simp at hex
    | panicked => rw [collate_cons_panicked rest hh] at hex; simp at hex

/-- A quiet input keeps the engine running; a record adds one to the pending
count, the other quiet inputs leave it alone. -/
theorem handle_quiet (c : Collator) (i : Input) (hq : i.isQuiet = true) :
    ∃ c1 out, handle c i = Outcome.running c1 out ∧
      c1.accumHits = c.accumHits + (if i.isRecord then 1 else 0) ∧
      c1.hitsMovingAverage = c.hitsMovingAverage ∧
      c1.inAlertedState = c.inAlertedState ∧
      c1.alertThreshold = c.alertThreshold ∧
      statuses out = [] ∧ alerts out = [] := by
  cases i with
  | ctxDone => simp [Input.isQuiet] at hq
  | movingAverageTimer now => simp [Input.isQuiet] at hq
  | entry e =>
    cases e with
    | none => simp [Input.isQuiet] at hq
    | some entry =>
      obtain ⟨c2, hc2⟩ := recordEntry_some c entry
      obtain ⟨f1, f2, f3, f4⟩ := recordEntry_frame hc2
      refine ⟨{ c2 with accumHits := c2.accumHits + 1 }, [], by simp [handle, hc2], ?_⟩
      simp [Input.isRecord, f1, f2, f3, f4, statuses, alerts]
  | sitesTimer =>
    exact ⟨c, [Event.sendSites (sendSites c)], rfl,
      by simp [Input.isRecord, statuses, alerts, Event.status?, Event.alert?]⟩
  | ResetChan =>
    exact ⟨{ c with siteHits := ∅ }, [], rfl, by simp [Input.isRecord, statuses, alerts]⟩

/-- A run of quiet inputs does not leave the loop, sends neither status nor
alert, and adds to the pending count the number of records it holds. -/
theorem collate_quiet (mid : List Input) :
    ∀ c : Collator, (∀ i ∈ mid, i.isQuiet = true) →
      (_collate c mid).exit = none ∧
        (Run.final c (_collate c mid)).accumHits = c.accumHits + (mid.countP Input.isRecord : Nat) ∧
        (Run.final c (_collate c mid)).hitsMovingAverage = c.hitsMovingAverage ∧
        (Run.final c (_collate c mid)).inAlertedState = c.inAlertedState ∧
        (Run.final c (_collate c mid)).alertThreshold = c.alertThreshold ∧
        statuses (_collate c mid).events = [] ∧ alerts (_collate c mid).events = [] := by
  induction mid with
  | nil => intro c _; rw [final_nil]; simp [_collate, Run.events, statuses, alerts]
  | cons i rest ih =>
    intro c hq
    obtain ⟨c1, out, hh, g1, g2, g3, g4, g5, g6⟩ := handle_quiet c i (hq i (List.mem_cons_self _ _))
    obtain ⟨r0, r1, r2, r3, r4, r5, r6⟩ := ih c1 (fun j hj => hq j (List.mem_cons_of_mem _ hj))
    rw [exit_cons_running rest hh, final_cons_running rest hh, events_cons_running rest hh,
      statuses_append, alerts_append, r1, r2, r3, r4, r5, r6, g1, g2, g3, g4, g5, g6]
    refine ⟨r0, ?_, rfl, rfl, rfl, rfl, rfl⟩
    rw [List.countP_cons]
    cases i.isRecord <;> simp
    ring

/-- A sampling tick keeps the engine running, sends one status report with the
pending count and the average, pushes the pending count into the window and
resets it. -/
theorem handle_tick (c : Collator) (now : Time) :
    ∃ c1 out, handle c (Input.movingAverageTimer now) = Outcome.running c1 out ∧
      c1.accumHits = 0 ∧
      c1.hitsMovingAverage = c.hitsMovingAverage.Add (c.accumHits : ℚ) ∧
      statuses out = [{ HitsLastSecond := c.accumHits, AverageHitsPerSecond := tickAvg c }] := by
  simp only [handle]
  split_ifs <;>
    exact ⟨_, _, rfl, rfl, rfl, by simp [statuses, Event.status?, tickAvg]⟩

theorem collate_tick (c : Collator) (now : Time) :
    (_collate c [Input.movingAverageTimer now]).exit = none ∧
      (Run.final c (_collate c [Input.movingAverageTimer now])).accumHits = 0 ∧
      (Run.final c (_collate c [Input.movingAverageTimer now])).hitsMovingAverage =
        c.hitsMovingAverage.Add (c.accumHits : ℚ) ∧
      statuses (_collate c [Input.movingAverageTimer now]).events =
        [{ HitsLastSecond := c.accumHits, AverageHitsPerSecond := tickAvg c }] := by
  obtain ⟨c1, out, hh, h1, h2, h3⟩ := handle_tick c now
  rw [exit_cons_running [] hh, final_cons_running [] hh, events_cons_running [] hh, final_nil,
    statuses_append, h3]
  exact ⟨rfl, h1, h2, by simp [_collate, Run.events, statuses]⟩

/-- An interval: quiet inputs, then a sampling tick. -/
theorem collate_interval (c : Collator) (mid : List Input) (now : Time)
    (hq : ∀ i ∈ mid, i.isQuiet = true) :
    (_collate c (mid ++ [Input.movingAverageTimer now])).exit = none ∧
      (Run.final c (_collate c (mid ++ [Input.movingAverageTimer now]))).accumHits = 0 ∧
      (Run.final c (_collate c (mid ++ [Input.movingAverageTimer now]))).hitsMovingAverage =
        c.hitsMovingAverage.Add ((c.accumHits + (mid.countP Input.isRecord : Nat) : Int) : ℚ) ∧
      statuses (_collate c (mid ++ [Input.movingAverageTimer now])).events =
        [{ HitsLastSecond := c.accumHits + (mid.countP Input.isRecord : Nat)
           AverageHitsPerSecond :=
            (c.hitsMovingAverage.Add
              ((c.accumHits + (mid.countP Input.isRecord : Nat) : Int) : ℚ)).Avg }] := by
  obtain ⟨q0, q1, q2, _, _, q5, _⟩ := collate_quiet mid c hq
  obtain ⟨a1, a2, a3⟩ := collate_append mid c [Input.movingAverageTimer now] q0
  obtain ⟨t0, t1, t2, t3⟩ := collate_tick (Run.final c (_collate c mid)) now
  rw [a1, a2, a3, statuses_append, q5, t0, t1, t2, t3, q1, q2]
  exact ⟨rfl, rfl, rfl, by simp [tickAvg, q1, q2]⟩

/-- C8: between two consecutive sampling ticks let the engine handle any
sequence of records (whatever their paths), site reports and resets. The
status report of the second tick then has `HitsLastSecond` equal to the number
of records in the sequence, the pending count is 0 once that tick is handled,
and the engine is still running. -/
theorem C8_status_counts_records (c : Collator) (now0 now1 : Time) (mid : List Input)
    (hq : ∀ i ∈ mid, i.isQuiet = true) :
    statuses
        (_collate c (Input.movingAverageTimer now0 :: (mid ++ [Input.movingAverageTimer now1]))).events =
      [{ HitsLastSecond := c.accumHits, AverageHitsPerSecond := tickAvg c },
       { HitsLastSecond := (mid.countP Input.isRecord : Nat)
         AverageHitsPerSecond :=
          ((c.hitsMovingAverage.Add (c.accumHits : ℚ)).Add
            (((mid.countP Input.isRecord : Nat) : Int) : ℚ)).Avg }] ∧
      (Run.final c
        (_collate c
          (Input.movingAverageTimer now0 :: (mid ++ [Input.movingAverageTimer now1])))).accumHits = 0 ∧
      (_collate c (Input.movingAverageTimer now0 :: (mid ++ [Input.movingAverageTimer now1]))).exit =
        none := by
  obtain ⟨c1, out, hh, h1, h2, h3⟩ := handle_tick c now0
  obtain ⟨i0, i1, _, i3⟩ := collate_interval c1 mid now1 hq
  rw [events_cons_running _ hh, final_cons_running _ hh, exit_cons_running _ hh, statuses_append,
    h3, i3, h1, h2]
  refine ⟨by simp, i1, i0⟩

/-- C8 at a fresh engine with threshold 10: three records, one with a
well-formed path and two without, a reset and a site report between two
ticks. -/
theorem C8_status_counts_records_witness :
    statuses
        (_collate (NewAndRun 10)
          (Input.movingAverageTimer 1 ::
            ([Input.entry (some { Path := "/api/users".toList }), Input.ResetChan,
              Input.entry (some { Path := [] }), Input.sitesTimer,
              Input.entry (some { Path := "x".toList })] ++ [Input.movingAverageTimer 2]))).events =
      [{ HitsLastSecond := (NewAndRun 10).accumHits, AverageHitsPerSecond := tickAvg (NewAndRun 10) },
       { HitsLastSecond :=
          (([Input.entry (some { Path := "/api/users".toList }), Input.ResetChan,
              Input.entry (some { Path := [] }), Input.sitesTimer,
              Input.entry (some { Path := "x".toList })].countP Input.isRecord : Nat) : Int)
         AverageHitsPerSecond :=
          (((NewAndRun 10).hitsMovingAverage.Add ((NewAndRun 10).accumHits : ℚ)).Add
            ((([Input.entry (some { Path := "/api/users".toList }), Input.ResetChan,
              Input.entry (some { Path := [] }), Input.sitesTimer,
              Input.entry (some { Path := "x".toList })].countP Input.isRecord : Nat) : Int) : ℚ)).Avg }] ∧
      (Run.final (NewAndRun 10)
        (_collate (NewAndRun 10)
          (Input.movingAverageTimer 1 ::
            ([Input.entry (some { Path := "/api/users".toList }), Input.ResetChan,
              Input.entry (some { Path := [] }), Input.sitesTimer,
              Input.entry (some { Path := "x".toList })] ++ [Input.movingAverageTimer 2])))).accumHits =
        0 ∧
      (_collate (NewAndRun 10)
          (Input.movingAverageTimer 1 ::
            ([Input.entry (some { Path := "/api/users".toList }), Input.ResetChan,
              Input.entry (some { Path := [] }), Input.sitesTimer,
              Input.entry (some { Path := "x".toList })] ++ [Input.movingAverageTimer 2]))).exit =
        none :=
  C8_status_counts_records (NewAndRun 10) 1 2
    [Input.entry (some { Path := "/api/users".toList }), Input.ResetChan,
      Input.entry (some { Path := [] }), Input.sitesTimer,
      Input.entry (some { Path := "x".toList })]
    (by decide)

/-! ## The site report -/

theorem insertLeft_perm (less : Site → Site → Bool) (x : Site) (l : List Site) :
    (insertLeft less x l).Perm (x :: l) := by
  induction l with
  | nil => simp [insertLeft]
  | cons y ys ih =>
    simp only [insertLeft]
    split_ifs
    · exact (ih.cons y).trans (List.Perm.swap x y ys)
    · exact List.Perm.refl _

theorem foldl_insertLeft_perm (less : Site → Site → Bool) (data : List Site) :
    ∀ sorted : List Site,
      (data.foldl (fun sorted x => insertLeft less x sorted) sorted).Perm (data ++ sorted) := by
  induction data with
  | nil => intro sorted; simp
  | cons x xs ih =>
    intro sorted
    simp only [List.foldl_cons, List.cons_append]
    exact (ih _).trans
      (((insertLeft_perm less x sorted).append_left xs).trans List.perm_middle)

theorem sortSort_perm (less : Site → Site → Bool) (data : List Site) :
    (sortSort less data).Perm data := by
  unfold sortSort
  refine (List.reverse_perm _).trans ?_
  simpa using foldl_insertLeft_perm less data []

/-- Moving an element left with the swapped `ByHits.Less` keeps the sorted
part, read nearest element first, in non-decreasing order of hits. -/
theorem insertLeft_sorted (x : Site) (l : List Site)
    (h : l.Pairwise (fun a b => a.TotalHits ≤ b.TotalHits)) :
    (insertLeft (sortReverse ByHits.Less) x l).Pairwise (fun a b => a.TotalHits ≤ b.TotalHits) := by
  induction l with
  | nil => simp [insertLeft]
  | cons y ys ih =>
    rw [List.pairwise_cons] at h
    simp only [insertLeft, sortReverse, ByHits.Less, decide_eq_true_eq]
    split_ifs with hxy
    · rw [List.pairwise_cons]
      refine ⟨?_, ih h.2⟩
      intro z hz
      rcases List.mem_cons.mp ((insertLeft_perm _ x ys).subset hz) with rfl | hz
      · exact le_of_lt hxy
      · exact h.1 z hz
    · rw [List.pairwise_cons, List.pairwise_cons]
      refine ⟨?_, h⟩
      intro z hz
      rcases List.mem_cons.mp hz with rfl | hz
      · exact not_lt.mp hxy
      · exact le_trans (not_lt.mp hxy) (h.1 z hz)

theorem foldl_insertLeft_sorted (data : List Site) :
    ∀ sorted : List Site, sorted.Pairwise (fun a b => a.TotalHits ≤ b.TotalHits) →
      (data.foldl (fun sorted x => insertLeft (sortReverse ByHits.Less) x sorted) sorted).Pairwise
        (fun a b => a.TotalHits ≤ b.TotalHits) := by
  induction data with
  | nil => intro sorted h; simpa using h
  | cons x xs ih =>
    intro sorted h
    simp only [List.foldl_cons]
    exact ih _ (insertLeft_sorted x sorted h)

theorem sortSort_sorted (data : List Site) :
    (sortSort (sortReverse ByHits.Less) data).Pairwise (fun a b => b.TotalHits ≤ a.TotalHits) := by
  unfold sortSort
  rw [List.pairwise_reverse]
  exact foldl_insertLeft_sorted data [] List.Pairwise.nil

/-- C9: the list built by `sendSites` is a permutation of the entries of
`siteHits`, one `Site` per key with that key's count: no site name occurs
twice, a `Site` is in the list exactly when the map gives its name its count,
and `TotalHits` does not increase along the list. -/
theorem C9_sendSites_ranked (c : Collator) :
    (sendSites c).Sites.Perm
        (c.siteHits.entries.map (fun e => ({ Site := e.1, TotalHits := e.2 } : Site))) ∧
      ((sendSites c).Sites.map Site.Site).Perm c.siteHits.keys ∧
      ((sendSites c).Sites.map Site.Site).Nodup ∧
      (∀ s : Site, s ∈ (sendSites c).Sites ↔ c.siteHits.lookup s.Site = some s.TotalHits) ∧
      (sendSites c).Sites.Pairwise (fun a b => b.TotalHits ≤ a.TotalHits) := by
  have hperm : (sendSites c).Sites.Perm
      (c.siteHits.entries.map (fun e => ({ Site := e.1, TotalHits := e.2 } : Site))) :=
    sortSort_perm _ _
  have hkeys : ((sendSites c).Sites.map Site.Site).Perm c.siteHits.keys := by
    refine (hperm.map Site.Site).trans ?_
    simp [AList.keys, List.keys, List.map_map, Function.comp_def]
  refine ⟨hperm, hkeys, hkeys.nodup_iff.mpr c.siteHits.keys_nodup, ?_, sortSort_sorted _⟩
  intro s
  rw [hperm.mem_iff, List.mem_map]
  constructor
  · rintro ⟨e, he, rfl⟩
    exact AList.mem_lookup_iff.mpr he
  · intro h
    exact ⟨⟨s.Site, s.TotalHits⟩, AList.mem_lookup_iff.mp h, rfl⟩

/-! ## Records and site keys -/

theorem stringsIndex_slash (s : List Char) :
    stringsIndex s ['/'] =
      if '/' ∈ s then ((s.takeWhile (fun ch => ch != '/')).length : Int) else -1 := by
  induction s with
  | nil => simp [stringsIndex, List.isPrefixOf]
  | cons a t ih =>
    unfold stringsIndex
    by_cases ha : a = '/'
    · subst ha
      simp [List.isPrefixOf]
    · have hne : ('/' : Char) ≠ a := fun h => ha h.symm
      by_cases ht : '/' ∈ t
      · have hidx : stringsIndex t ['/'] ≠ -1 := by
          rw [ih, if_pos ht]; omega
        simp only [List.isPrefixOf, List.mem_cons, hne, ht, or_true, if_true]
        simp [ha, hne, hidx, ih, ht]
      · simp only [List.isPrefixOf, List.mem_cons, hne, ht, or_false, if_false]
        simp [ha, hne, ih, ht]

theorem take_length_takeWhile (p : Char → Bool) (l : List Char) :
    l.take (l.takeWhile p).length = l.takeWhile p := by
  induction l with
  | nil => simp
  | cons a t ih =>
    by_cases hp : p a
    · simp [List.takeWhile_cons, hp, ih]
    · simp [List.takeWhile_cons, hp]

/-- What `recordEntry` does with a path that passes its checks: it counts the
record under the path cut just before the first `/` that follows the leading
one. -/
theorem recordEntry_counted (c : Collator) (tail : List Char) (h3 : 3 ≤ ('/' :: tail).length)
    (hs : '/' ∈ tail) :
    recordEntry c (some { Path := '/' :: tail }) =
      some { c with
        siteHits := c.siteHits.insert ('/' :: tail.takeWhile (fun ch => ch != '/'))
          ((c.siteHits.lookup ('/' :: tail.takeWhile (fun ch => ch != '/'))).getD 0 + 1) } := by
  have hlen : ¬ (('/' :: tail).length < 3) := by omega
  have hidx : stringsIndex tail ['/'] ≠ -1 := by
    rw [stringsIndex_slash, if_pos hs]; omega
  have htake : ('/' :: tail).take (stringsIndex tail ['/'] + 1).toNat =
      '/' :: tail.takeWhile (fun ch => ch != '/') := by
    rw [stringsIndex_slash, if_pos hs]
    have : (((tail.takeWhile (fun ch => ch != '/')).length : Int) + 1).toNat =
        (tail.takeWhile (fun ch => ch != '/')).length + 1 := by omega
    rw [this, List.take_succ_cons, take_length_takeWhile]
  simp only [recordEntry, hlen, List.head?_cons, List.drop_succ_cons, List.drop_zero, htake]
  simp only [bne_self_eq_false, Bool.or_self, Bool.false_eq_true, if_false, hidx]
  rw [htake]
  cases hl : c.siteHits.lookup ('/' :: tail.takeWhile (fun ch => ch != '/')) with
  | none => simp
  | some n => simp

/-- C5, as stated, fails. The path `/api/users` has a `/` after its first
character; the substring from its second character up to that `/` is `api`,
yet the record is counted under `/api`, and nothing is counted under `api`.
The path `//` has 2 characters and a `/` after the first, and the path
`ab/c` has one too; neither is counted under any key. -/
theorem C5_counterexample :
    specSiteKey "/api/users".toList = "api".toList ∧
      (recordEntry (NewAndRun 10) (some { Path := "/api/users".toList })).map
          (fun c => c.siteHits.entries) = some [⟨"/api".toList, 1⟩] ∧
      (recordEntry (NewAndRun 10) (some { Path := "/api/users".toList })).map
          (fun c => c.siteHits.lookup (specSiteKey "/api/users".toList)) = some none ∧
      (recordEntry (NewAndRun 10) (some { Path := "//".toList })).map
          (fun c => c.siteHits.entries) = some [] ∧
      (recordEntry (NewAndRun 10) (some { Path := "ab/c".toList })).map
          (fun c => c.siteHits.entries) = some [] := by
  refine ⟨by decide, by decide, by decide, by decide, by decide⟩

/-- C5, amended: for every record whose path has at least 3 characters, starts
with `/` and has a `/` after its first character, the key under which
`recordEntry` counts the record is the leading `/` followed by the substring of
the path from its second character up to, not including, the next `/`: that
key gets its previous count plus one, or 1 if it had none, and the rest of the
state is unchanged. -/
theorem C5_site_key_keeps_leading_slash (c : Collator) (path : List Char)
    (h3 : 3 ≤ path.length) (h0 : path.head? = some '/') (hs : '/' ∈ path.drop 1) :
    recordEntry c (some { Path := path }) =
      some { c with
        siteHits := c.siteHits.insert ('/' :: specSiteKey path)
          ((c.siteHits.lookup ('/' :: specSiteKey path)).getD 0 + 1) } := by
  cases path with
  | nil => simp at h0
  | cons a tail =>
    simp only [List.head?_cons, Option.some.injEq] at h0
    subst h0
    simp only [List.drop_succ_cons, List.drop_zero] at hs
    simpa [specSiteKey] using recordEntry_counted c tail h3 hs

/-- C5, amended, at the path `/api/users` on a fresh engine. -/
theorem C5_site_key_keeps_leading_slash_witness :
    recordEntry (NewAndRun 10) (some { Path := "/api/users".toList }) =
      some { NewAndRun 10 with
        siteHits := (NewAndRun 10).siteHits.insert ('/' :: specSiteKey "/api/users".toList)
          (((NewAndRun 10).siteHits.lookup ('/' :: specSiteKey "/api/users".toList)).getD 0 + 1) } :=
  C5_site_key_keeps_leading_slash (NewAndRun 10) "/api/users".toList (by decide) (by decide)
    (by decide)

/-! ## The closed entry channel -/

/-- C3, the code at the failing input: when `logparse.Common` fails on a line,
`_parse` sends the error and returns, which closes `entryChan`. The receive
`entry := <-entryChan` of `_collate` has no test for a closed channel, unlike
the receive in `_parse`; it yields the nil pointer, which `_collate` hands to
`recordEntry` as if it were a record. Reading the path through it is a
run-time panic: `_collate` does not return, it is unwound by the panic. -/
theorem C3_nil_entry_panics (Common : String → Except GoError Entry) (line : String)
    (err : GoError) (more : List String) (hfail : Common line = Except.error err)
    (c : Collator) (rest : List Input) :
    (_parse Common (line :: more)).error = some err ∧
      (_parse Common (line :: more)).entries = [] ∧
      recordEntry c none = none ∧
      handle c (Input.entry none) = Outcome.panicked ∧
      (_collate c (Input.entry none :: rest)).exit = some Exit.panicked := by
  refine ⟨by simp [_parse, hfail], by simp [_parse, hfail], rfl, rfl, ?_⟩
  have hp : handle c (Input.entry none) = Outcome.panicked := rfl
  rw [collate_cons_panicked rest hp]

/-- C3 at a parser that rejects every line, on a fresh engine. -/
theorem C3_nil_entry_panics_witness :
    (_parse (fun _ => Except.error "bad line") ("garbage" :: [])).error = some "bad line" ∧
      (_parse (fun _ => Except.error "bad line") ("garbage" :: [])).entries = [] ∧
      recordEntry (NewAndRun 10) none = none ∧
      handle (NewAndRun 10) (Input.entry none) = Outcome.panicked ∧
      (_collate (NewAndRun 10) (Input.entry none :: [])).exit = some Exit.panicked :=
  C3_nil_entry_panics (fun _ => Except.error "bad line") "garbage" "bad line" [] rfl
    (NewAndRun 10) []

end collator

/-! ## The moving window -/

namespace movingaverage

theorem mod_ne_of_close {w i n : Nat} (h1 : i < n) (h2 : n < i + w) : i % w ≠ n % w := by
  intro h
  have h0 : (n - i) % w = 0 := Nat.sub_mod_eq_zero_of_mod_eq h.symm
  rw [Nat.mod_eq_of_lt (by omega)] at h0
  omega

theorem holds_new (w : Nat) : Holds w [] (New w) where
  window := rfl
  len := by simp [New]
  count := by simp [New]
  pos := by simp [New]
  sum := by simp [New]
  slots := by intro i _ hi; simp at hi

theorem holds_add {w : Nat} (hw : 0 < w) {hist : List ℚ} {ma : MovingAverage}
    (h : Holds w hist ma) (v : ℚ) : Holds w (hist ++ [v]) (ma.Add v) := by
  obtain ⟨hwin, hlen, hcount, hpos, hsum, hslots⟩ := h
  have hposlt : ma.valPos < ma.values.length := by
    rw [hpos, hlen]; exact Nat.mod_lt _ hw
  have hslots2 : ∀ i, (hist ++ [v]).length - w ≤ i → i < (hist ++ [v]).length →
      ((ma.values.set ma.valPos v)[i % w]?).getD 0 = ((hist ++ [v])[i]?).getD 0 := by
    intro i hi1 hi2
    simp only [List.length_append, List.length_singleton] at hi1 hi2
    by_cases hin : i = hist.length
    · subst hin
      rw [hpos, List.getElem?_set_self (by rw [hlen]; exact Nat.mod_lt _ hw)]
      simp
    · have hlt : i < hist.length := by omega
      have hne : hist.length % w ≠ i % w := (mod_ne_of_close hlt (by omega)).symm
      rw [hpos, List.getElem?_set_ne hne, hslots i (by omega) hlt,
        List.getElem?_append_left hlt]
  have hnext : (ma.valPos + 1) % ma.Window = (hist ++ [v]).length % w := by
    rw [hpos, hwin, Nat.mod_add_mod]; simp
  unfold MovingAverage.Add
  split_ifs with hc
  · have hn : hist.length < w := by
      rw [hcount, hwin] at hc
      omega
    refine ⟨hwin, by simpa using hlen, ?_, hnext, ?_, hslots2⟩
    · simp only [hcount, List.length_append, List.length_singleton]; omega
    · have e1 : hist.length - w = 0 := by omega
      have e2 : (hist ++ [v]).length - w = 0 := by
        simp only [List.length_append, List.length_singleton]; omega
      simp only [hsum, e1, e2, List.drop_zero, List.sum_append, List.sum_singleton]
  · have hn : w ≤ hist.length := by
      rw [hcount, hwin] at hc
      omega
    refine ⟨hwin, by simpa using hlen, ?_, hnext, ?_, hslots2⟩
    · simp only [hcount, List.length_append, List.length_singleton]; omega
    · have hold : ma.values.getD ma.valPos 0 = (hist[hist.length - w]?).getD 0 := by
        rw [List.getD_eq_getElem?_getD, hpos, Nat.mod_eq_sub_mod hn]
        exact hslots (hist.length - w) (le_refl _) (by omega)
      have hlt : hist.length - w < hist.length := by omega
      have e2 : (hist ++ [v]).length - w = hist.length - w + 1 := by
        simp only [List.length_append, List.length_singleton]; omega
      rw [e2, hold, hsum, List.drop_append_of_le_length (by omega), List.sum_append,
        List.sum_singleton, List.drop_eq_getElem_cons hlt, List.sum_cons,
        List.getElem?_eq_getElem hlt]
      simp

theorem holds_foldl {w : Nat} (hw : 0 < w) (hist : List ℚ) :
    Holds w hist (hist.foldl MovingAverage.Add (New w)) := by
  induction hist using List.reverseRecOn with
  | nil => exact holds_new w
  | append_singleton l v ih =>
    rw [List.foldl_append]
    exact holds_add hw ih v

/-- The average of a window that holds at least one sample is the mean of the
last `w` samples received, or of all of them when there are fewer. -/
theorem avg_of_holds {w : Nat} (hw : 0 < w) {hist : List ℚ} {ma : MovingAverage}
    (h : Holds w hist ma) (hne : hist ≠ []) :
    ma.Avg = (hist.drop (hist.length - w)).sum / ((hist.drop (hist.length - w)).length : ℚ) := by
  have hpos : 0 < hist.length := List.length_pos.mpr hne
  have hc : ma.count ≠ 0 := by rw [h.count]; omega
  have hl : (hist.drop (hist.length - w)).length = ma.count := by
    rw [h.count, List.length_drop]; omega
  unfold MovingAverage.Avg
  rw [if_neg hc, h.sum, hl]

end movingaverage

namespace collator

open movingaverage

theorem feed_cons (p : List Input × Time) (ps : List (List Input × Time)) :
    feed (p :: ps) = (p.1 ++ [Input.movingAverageTimer p.2]) ++ feed ps := by
  simp [feed, List.flatMap_cons]

theorem feed_concat (ps : List (List Input × Time)) (p : List Input × Time) :
    feed (ps ++ [p]) = feed ps ++ (p.1 ++ [Input.movingAverageTimer p.2]) := by
  simp [feed, List.flatMap_append]

/-- A sequence of sampling intervals, fed to an engine with no pending count,
leaves the engine running with no pending count, pushes the samples into the
window in order, and sends one status report per interval. -/
theorem collate_feed (intervals : List (List Input × Time)) :
    ∀ c : Collator, (∀ p ∈ intervals, ∀ i ∈ p.1, i.isQuiet = true) → c.accumHits = 0 →
      (_collate c (feed intervals)).exit = none ∧
        (Run.final c (_collate c (feed intervals))).accumHits = 0 ∧
        (Run.final c (_collate c (feed intervals))).hitsMovingAverage =
          (samples intervals).foldl MovingAverage.Add c.hitsMovingAverage ∧
        (statuses (_collate c (feed intervals)).events).length = intervals.length := by
  induction intervals with
  | nil =>
    intro c _ h0
    rw [show feed [] = [] from rfl, final_nil]
    simp [_collate, Run.events, statuses, samples, h0]
  | cons p ps ih =>
    intro c hq h0
    obtain ⟨i0, i1, i2, i3⟩ := collate_interval c p.1 p.2 (hq p (List.mem_cons_self _ _))
    obtain ⟨a1, a2, a3⟩ := collate_append (p.1 ++ [Input.movingAverageTimer p.2]) c (feed ps) i0
    obtain ⟨r0, r1, r2, r3⟩ :=
      ih (Run.final c (_collate c (p.1 ++ [Input.movingAverageTimer p.2])))
        (fun q hq2 => hq q (List.mem_cons_of_mem _ hq2)) i1
    rw [feed_cons, a1, a2, a3, statuses_append, i3, r0, r1, r2, i2, List.length_append, r3, h0]
    refine ⟨rfl, rfl, ?_, by simp; omega⟩
    simp [samples]

/-- C4: feed a freshly created engine `k ≥ 1` sampling intervals, the sample of
an interval being the number of records in it. The engine sends `k` status
reports; the last one, sent by the `k`-th tick, carries the `k`-th sample and
an average equal to the arithmetic mean of all `k` samples when `k < 120`, and
to the arithmetic mean of the most recent 120 samples when `k ≥ 120`. -/
theorem C4_moving_average_is_mean (alertThreshold : Int) (intervals : List (List Input × Time))
    (hq : ∀ p ∈ intervals, ∀ i ∈ p.1, i.isQuiet = true) (hne : intervals ≠ []) :
    (statuses (_collate (NewAndRun alertThreshold) (feed intervals)).events).length =
        intervals.length ∧
      ∃ s : Status,
        (statuses (_collate (NewAndRun alertThreshold) (feed intervals)).events).getLast? = some s ∧
        (s.HitsLastSecond : ℚ) = (samples intervals).getLast?.getD 0 ∧
        s.AverageHitsPerSecond = meanOfLast 120 (samples intervals) ∧
        (intervals.length < 120 →
          s.AverageHitsPerSecond = (samples intervals).sum / (intervals.length : ℚ)) ∧
        (120 ≤ intervals.length →
          s.AverageHitsPerSecond =
            ((samples intervals).drop (intervals.length - 120)).sum / 120) := by
  have hlen := (collate_feed intervals (NewAndRun alertThreshold) hq rfl).2.2.2
  refine ⟨hlen, ?_⟩
  obtain ⟨init, p, rfl⟩ : ∃ init p, intervals = init ++ [p] :=
    ⟨intervals.dropLast, intervals.getLast hne, (List.dropLast_append_getLast hne).symm⟩
  have hqi : ∀ q ∈ init, ∀ i ∈ q.1, i.isQuiet = true := fun q hq2 =>
    hq q (List.mem_append_left _ hq2)
  obtain ⟨f0, f1, f2, _⟩ := collate_feed init (NewAndRun alertThreshold) hqi rfl
  obtain ⟨a1, _, _⟩ := collate_append (feed init) (NewAndRun alertThreshold)
    (p.1 ++ [Input.movingAverageTimer p.2]) f0
  obtain ⟨_, _, _, i3⟩ := collate_interval
    (Run.final (NewAndRun alertThreshold) (_collate (NewAndRun alertThreshold) (feed init)))
    p.1 p.2 (hq p (by simp))
  have hsam : samples (init ++ [p]) =
      samples init ++ [(((p.1.countP Input.isRecord : Nat) : Int) : ℚ)] := by
    simp [samples]
  have hsl : (samples (init ++ [p])).length = (init ++ [p]).length := by simp [samples]
  have havg : ((samples init).foldl MovingAverage.Add (New (2 * 60))).Add
        (((p.1.countP Input.isRecord : Nat) : Int) : ℚ) =
      (samples (init ++ [p])).foldl MovingAverage.Add (New (2 * 60)) := by
    rw [hsam, List.foldl_append]; rfl
  have hmean := avg_of_holds (by norm_num : 0 < 2 * 60)
    (holds_foldl (by norm_num : 0 < 2 * 60) (samples (init ++ [p]))) (by simp [hsam])
  have i4 : statuses
      (_collate (Run.final (NewAndRun alertThreshold) (_collate (NewAndRun alertThreshold) (feed init)))
          (p.1 ++ [Input.movingAverageTimer p.2])).events =
      [{ HitsLastSecond := (p.1.countP Input.isRecord : Nat)
         AverageHitsPerSecond :=
          ((samples (init ++ [p])).foldl MovingAverage.Add (New (2 * 60))).Avg }] := by
    rw [i3, f1, f2, ← havg]
    simp only [zero_add]
    rfl
  refine ⟨{ HitsLastSecond := (p.1.countP Input.isRecord : Nat)
            AverageHitsPerSecond :=
              ((samples (init ++ [p])).foldl MovingAverage.Add (New (2 * 60))).Avg },
    by rw [feed_concat, a1, statuses_append, i4]; simp, ?_, ?_, ?_, ?_⟩
  · simp [hsam]
  · simp only [meanOfLast]
    rw [hmean]
  · intro hk
    simp only
    rw [hmean, hsl, show (init ++ [p]).length - 2 * 60 = 0 by omega, List.drop_zero, hsl]
  · intro hk
    simp only
    rw [hmean, List.length_drop, hsl,
      show (init ++ [p]).length - ((init ++ [p]).length - 2 * 60) = 120 by omega]
    norm_num

/-- C4 at a fresh engine with threshold 10 and two intervals, of 2 records and
of 1 record. -/
theorem C4_moving_average_is_mean_witness :
    (statuses (_collate (NewAndRun 10)
        (feed [([Input.entry (some { Path := [] }), Input.entry (some { Path := [] })], 1),
          ([Input.entry (some { Path := [] })], 2)])).events).length =
        [([Input.entry (some { Path := [] }), Input.entry (some { Path := [] })], 1),
          ([Input.entry (some { Path := [] })], 2)].length ∧
      ∃ s : Status,
        (statuses (_collate (NewAndRun 10)
          (feed [([Input.entry (some { Path := [] }), Input.entry (some { Path := [] })], 1),
            ([Input.entry (some { Path := [] })], 2)])).events).getLast? = some s ∧
        (s.HitsLastSecond : ℚ) =
          (samples [([Input.entry (some { Path := [] }), Input.entry (some { Path := [] })], 1),
            ([Input.entry (some { Path := [] })], 2)]).getLast?.getD 0 ∧
        s.AverageHitsPerSecond =
          meanOfLast 120
            (samples [([Input.entry (some { Path := [] }), Input.entry (some { Path := [] })], 1),
              ([Input.entry (some { Path := [] })], 2)]) ∧
        ([([Input.entry (some { Path := [] }), Input.entry (some { Path := [] })], 1),
            ([Input.entry (some { Path := [] })], (2 : Time))].length < 120 →
          s.AverageHitsPerSecond =
            (samples [([Input.entry (some { Path := [] }), Input.entry (some { Path := [] })], 1),
              ([Input.entry (some { Path := [] })], 2)]).sum /
              (([([Input.entry (some { Path := [] }), Input.entry (some { Path := [] })], 1),
                ([Input.entry (some { Path := [] })], (2 : Time))].length : Nat) : ℚ)) ∧
        (120 ≤ [([Input.entry (some { Path := [] }), Input.entry (some { Path := [] })], 1),
            ([Input.entry (some { Path := [] })], (2 : Time))].length →
          s.AverageHitsPerSecond =
            ((samples [([Input.entry (some { Path := [] }), Input.entry (some { Path := [] })], 1),
              ([Input.entry (some { Path := [] })], 2)]).drop
                ([([Input.entry (some { Path := [] }), Input.entry (some { Path := [] })], 1),
                  ([Input.entry (some { Path := [] })], (2 : Time))].length - 120)).sum / 120) :=
  C4_moving_average_is_mean 10
    [([Input.entry (some { Path := [] }), Input.entry (some { Path := [] })], 1),
      ([Input.entry (some { Path := [] })], 2)]
    (by decide) (by decide)

/-- The run of the witness above, evaluated: the two status reports carry the
samples 2 and 1 and the averages 2 and 3 / 2. -/
theorem fresh_engine_two_intervals :
    statuses (_collate (NewAndRun 10)
        (feed [([Input.entry (some { Path := [] }), Input.entry (some { Path := [] })], 1),
          ([Input.entry (some { Path := [] })], 2)])).events =
      [{ HitsLastSecond := 2, AverageHitsPerSecond := 2 },
       { HitsLastSecond := 1, AverageHitsPerSecond := 3 / 2 }] := by
  simp [feed, _collate, handle, recordEntry, Run.events, statuses, Event.status?, NewAndRun,
    MovingAverage.Add, MovingAverage.Avg, New]
  norm_num
  rfl

end collator

/-! ## Claims about `recordEntry` -/

namespace collator

open movingaverage

theorem takeWhile_segment (seg rest : List Char) (hno : '/' ∉ seg) :
    (seg ++ '/' :: rest).takeWhile (fun ch => ch != '/') = seg := by
  induction seg with
  | nil => simp
  | cons a t ih =>
    have ha : a ≠ '/' := fun h => hno (by simp [h])
    have ht : '/' ∉ t := fun h => hno (List.mem_cons_of_mem _ h)
    simp [List.takeWhile_cons, ha, ih ht]

/-- C11: a record whose path has fewer than 2 characters, or has no `/` after
its first character, leaves the whole state as it is, `siteHits` included: no
key is added and no count changes. Handling the record sends nothing, on
`ErrorChan` or on any other channel; the engine goes on with the pending count
one higher. -/
theorem C11_malformed_path_ignored (c : Collator) (path : List Char)
    (h : path.length < 2 ∨ '/' ∉ path.drop 1) :
    recordEntry c (some { Path := path }) = some c ∧
      (∀ c1, recordEntry c (some { Path := path }) = some c1 →
        c1.siteHits = c.siteHits ∧ c1.siteHits.entries = c.siteHits.entries) ∧
      handle c (Input.entry (some { Path := path })) =
        Outcome.running { c with accumHits := c.accumHits + 1 } [] := by
  have key : recordEntry c (some { Path := path }) = some c := by
    simp only [recordEntry]
    split_ifs with h1 h2
    · rfl
    · rfl
    · exfalso
      rw [stringsIndex_slash] at h2
      by_cases hs : '/' ∈ path.drop 1
      · rcases h with h | h
        · simp only [Bool.or_eq_true, decide_eq_true_eq, not_or, not_lt] at h1
          omega
        · exact h hs
      · rw [if_neg hs] at h2
        exact h2 rfl
  refine ⟨key, ?_, ?_⟩
  · intro c1 h1
    rw [key, Option.some.injEq] at h1
    subst h1
    exact ⟨rfl, rfl⟩
  · simp [handle, key]

/-- C11 at the one-character path `/`, at the path `/index.html`, which has no
`/` after its first character, and at the empty path, on a fresh engine. -/
theorem C11_malformed_path_ignored_witness :
    (recordEntry (NewAndRun 10) (some { Path := "/index.html".toList }) = some (NewAndRun 10) ∧
      (∀ c1, recordEntry (NewAndRun 10) (some { Path := "/index.html".toList }) = some c1 →
        c1.siteHits = (NewAndRun 10).siteHits ∧
          c1.siteHits.entries = (NewAndRun 10).siteHits.entries) ∧
      handle (NewAndRun 10) (Input.entry (some { Path := "/index.html".toList })) =
        Outcome.running { NewAndRun 10 with accumHits := (NewAndRun 10).accumHits + 1 } []) ∧
    recordEntry (NewAndRun 10) (some { Path := "/".toList }) = some (NewAndRun 10) ∧
    recordEntry (NewAndRun 10) (some { Path := [] }) = some (NewAndRun 10) :=
  ⟨C11_malformed_path_ignored (NewAndRun 10) "/index.html".toList (Or.inr (by decide)),
    (C11_malformed_path_ignored (NewAndRun 10) "/".toList (Or.inl (by decide))).1,
    (C11_malformed_path_ignored (NewAndRun 10) [] (Or.inl (by decide))).1⟩

/-- C12: for a path `/` + `seg` + `/` + `rest` with `seg` non-empty and free of
`/`, `recordEntry` returns a state in whose `siteHits` the key `/` + `seg` has
its previous count plus one, or 1 if it was absent, and every other key has
the count it had; the other fields of the state are unchanged. -/
theorem C12_first_segment_counted (c : Collator) (seg rest : List Char)
    (hseg : seg ≠ []) (hno : '/' ∉ seg) :
    ∃ c1, recordEntry c (some { Path := '/' :: (seg ++ '/' :: rest) }) = some c1 ∧
      (∀ n, c.siteHits.lookup ('/' :: seg) = some n →
        c1.siteHits.lookup ('/' :: seg) = some (n + 1)) ∧
      (c.siteHits.lookup ('/' :: seg) = none → c1.siteHits.lookup ('/' :: seg) = some 1) ∧
      (∀ k, k ≠ '/' :: seg → c1.siteHits.lookup k = c.siteHits.lookup k) ∧
      c1.accumHits = c.accumHits ∧ c1.hitsMovingAverage = c.hitsMovingAverage ∧
      c1.inAlertedState = c.inAlertedState ∧ c1.alertThreshold = c.alertThreshold := by
  have hpos : 0 < seg.length := List.length_pos.mpr hseg
  have h3 : 3 ≤ ('/' :: (seg ++ '/' :: rest)).length := by
    simp only [List.length_cons, List.length_append]; omega
  have hs : '/' ∈ seg ++ '/' :: rest := by simp
  have hrec := recordEntry_counted c (seg ++ '/' :: rest) h3 hs
  rw [takeWhile_segment seg rest hno] at hrec
  refine ⟨_, hrec, ?_, ?_, ?_, rfl, rfl, rfl, rfl⟩
  · intro n hn
    simp [AList.lookup_insert, hn]
  · intro hn
    simp [AList.lookup_insert, hn]
  · intro k hk
    exact AList.lookup_insert_ne hk

/-- C12 at the path `/api/users` (`seg` is `api`, `rest` is `users`) on a
fresh engine. -/
theorem C12_first_segment_counted_witness :
    '/' :: ("api".toList ++ '/' :: "users".toList) = "/api/users".toList ∧
    ∃ c1, recordEntry (NewAndRun 10)
        (some { Path := '/' :: ("api".toList ++ '/' :: "users".toList) }) = some c1 ∧
      (∀ n, (NewAndRun 10).siteHits.lookup ('/' :: "api".toList) = some n →
        c1.siteHits.lookup ('/' :: "api".toList) = some (n + 1)) ∧
      ((NewAndRun 10).siteHits.lookup ('/' :: "api".toList) = none →
        c1.siteHits.lookup ('/' :: "api".toList) = some 1) ∧
      (∀ k, k ≠ '/' :: "api".toList →
        c1.siteHits.lookup k = (NewAndRun 10).siteHits.lookup k) ∧
      c1.accumHits = (NewAndRun 10).accumHits ∧
      c1.hitsMovingAverage = (NewAndRun 10).hitsMovingAverage ∧
      c1.inAlertedState = (NewAndRun 10).inAlertedState ∧
      c1.alertThreshold = (NewAndRun 10).alertThreshold :=
  ⟨by decide,
    C12_first_segment_counted (NewAndRun 10) "api".toList "users".toList (by decide) (by decide)⟩

end collator
